import Mathlib

/-
Verification of the ranking-engine core of the BiasFreeFootball repository.

Shallow embedding conventions:
* Python floats are idealized as exact rationals (ℚ) where the code only uses
  field arithmetic, and as reals (ℝ) where the code applies sqrt / log2 / the
  ** operator (numpy.sqrt, numpy.log2, float powers).
* Python dicts keyed by team or conference names are modelled as association
  lists `List (String × _)`; sets of names as deduplicated lists.
* A Python expression that can raise is modelled in the `Except PyExn` monad.

The file is organized as: all definitions first, then all lemmas and
theorems.
-/

namespace CFB

/- ==================================================================
DEFINITIONS
================================================================== -/

/-- Exceptions that the modelled code can raise.  `attributeError attr` stands
for Python's `AttributeError: 'WeightCalculator' object has no attribute
'<attr>'` (the quoted original message is carried here as the bare attribute
name). -/
inductive PyExn where
  | attributeError (attr : String)
deriving Repr, DecidableEq

/- ------------------------------------------------------------------
src/weights.py, class WeightCalculator
------------------------------------------------------------------ -/

/-- src/weights.py, `WeightCalculator.margin_factor`:
`effective_margin = min(max(margin, 1), 2**self.margin_cap - 1)`
followed by `np.log2(1 + effective_margin)`.  The first argument is the
configured `margin_cap`. -/
noncomputable def margin_factor (marginCap margin : ℝ) : ℝ :=
  Real.logb 2 (1 + min (max margin 1) ((2 : ℝ) ^ marginCap - 1))

/-- The venue factor configuration `config['venue']` read by
`WeightCalculator.__init__` (src/weights.py lines 19, 36-42). -/
structure VenueFactors where
  home_factor : ℚ
  neutral_factor : ℚ
  road_factor : ℚ
deriving Repr, DecidableEq

/-- src/weights.py, `WeightCalculator.venue_factor`: a dict lookup on the keys
`'home'`, `'neutral'`, `'road'` with default `neutral_factor`. -/
def venue_factor (vf : VenueFactors) (venue : String) : ℚ :=
  if venue = "home" then vf.home_factor
  else if venue = "neutral" then vf.neutral_factor
  else if venue = "road" then vf.road_factor
  else vf.neutral_factor

/-- src/ingest.py lines 253-259 (and src/validation.py lines 371-382): the
venue value stored on every processed game record.  The produced values are
exactly `"neutral"`, `"home"` and `"away"`; the string `"road"` is never
produced. -/
def ingestVenue (neutralSite : Bool) (homeScore awayScore : ℤ) : String :=
  if neutralSite then "neutral"
  else if homeScore > awayScore then "home"
  else "away"

/-- src/weights.py, `WeightCalculator.risk_multipliers`:
clamp `p_expected` to `[0.001, 0.999]`, then
credit `= base_weight * ((1 - p) / 0.5**B)` and
penalty `= base_weight * ((p / 0.5)**B)`.
The first argument is the configured risk exponent `B`. -/
noncomputable def risk_multipliers (riskB baseWeight pExpected : ℝ) : ℝ × ℝ :=
  let p := max (1 / 1000) (min (999 / 1000) pExpected)
  (baseWeight * ((1 - p) / (1 / 2 : ℝ) ^ riskB),
   baseWeight * ((p / (1 / 2 : ℝ)) ^ riskB))

/- ------------------------------------------------------------------
src/graph.py, GraphBuilder._get_team_conference_mapping and
GraphBuilder.inject_conf_strength
------------------------------------------------------------------ -/

/-- src/graph.py lines 143-145. -/
def sec_teams : List String :=
  ["Alabama", "Georgia", "Florida", "LSU", "Auburn", "Tennessee",
   "Kentucky", "South Carolina", "Mississippi State", "Ole Miss",
   "Arkansas", "Missouri", "Vanderbilt", "Texas A&M"]

/-- src/graph.py lines 147-149. -/
def big10_teams : List String :=
  ["Ohio State", "Michigan", "Penn State", "Wisconsin",
   "Iowa", "Minnesota", "Illinois", "Indiana", "Maryland",
   "Michigan State", "Nebraska", "Northwestern", "Purdue", "Rutgers"]

/-- src/graph.py lines 151-152. -/
def big12_teams : List String :=
  ["Oklahoma", "Texas", "Baylor", "Oklahoma State", "TCU",
   "Kansas State", "West Virginia", "Iowa State", "Kansas", "Texas Tech"]

/-- src/graph.py lines 154-155. -/
def pac12_teams : List String :=
  ["USC", "UCLA", "Oregon", "Washington", "Stanford", "Cal",
   "Arizona State", "Arizona", "Utah", "Colorado", "Oregon State",
   "Washington State"]

/-- src/graph.py lines 157-159. -/
def acc_teams : List String :=
  ["Clemson", "Florida State", "Miami", "Virginia Tech", "North Carolina",
   "Duke", "NC State", "Wake Forest", "Virginia", "Pittsburgh", "Syracuse",
   "Boston College", "Georgia Tech", "Louisville"]

/-- src/graph.py, `GraphBuilder._get_team_conference_mapping`: every node is
mapped, unknown teams to `"Other"`, following the source's branch order. -/
def teamConference (team : String) : String :=
  if sec_teams.contains team then "SEC"
  else if big10_teams.contains team then "Big Ten"
  else if big12_teams.contains team then "Big 12"
  else if pac12_teams.contains team then "Pac-12"
  else if acc_teams.contains team then "ACC"
  else "Other"

/-- A weighted directed graph with real weights (the team graph as mutated by
`inject_conf_strength`, whose multiplier is an `np.sqrt`). -/
structure DiGraphR where
  nodes : List String
  edges : List (String × String × ℝ)

/-- The per-edge update of src/graph.py lines 120-130: an edge u→v whose
endpoints map to the SAME conference that is PRESENT in `conf_ratings` has its
weight multiplied by `np.sqrt(conf_ratings[conf])`; every other edge is
untouched.  (The `u in team_to_conf and v in team_to_conf` guard in the
source is always true because `_get_team_conference_mapping` maps every node,
defaulting to `"Other"`.) -/
noncomputable def injectEdge (confRatings : List (String × ℝ))
    (e : String × String × ℝ) : String × String × ℝ :=
  if teamConference e.1 = teamConference e.2.1 then
    match confRatings.lookup (teamConference e.1) with
    | some s => (e.1, e.2.1, e.2.2 * Real.sqrt s)
    | none => e
  else e

/-- src/graph.py, `GraphBuilder.inject_conf_strength` (lines 106-132). -/
noncomputable def inject_conf_strength (G : DiGraphR)
    (confRatings : List (String × ℝ)) : DiGraphR :=
  ⟨G.nodes, G.edges.map (injectEdge confRatings)⟩

/-- Modelled from the spec (and from the repository's own test
tests/test_conf_injection.py): the RELATIVE per-edge rescaling the claim
describes — an intra-conference edge is rescaled by
`sqrt(S_conf / mean(S_all))`, a conference missing from `S` counting as the
neutral strength 0.5. -/
noncomputable def injectEdgeClaimed (confRatings : List (String × ℝ))
    (e : String × String × ℝ) : String × String × ℝ :=
  if teamConference e.1 = teamConference e.2.1 then
    (e.1, e.2.1, e.2.2 * Real.sqrt
      (((confRatings.lookup (teamConference e.1)).getD (1 / 2)) /
        (((confRatings.map (fun p => p.2)).sum) / (confRatings.length : ℝ))))
  else e

/-- Modelled from the spec: the relative conference-strength injection the
claim describes.  This definition exists only to be compared with
`inject_conf_strength`, the translation of the code. -/
noncomputable def inject_conf_strength_claimed (G : DiGraphR)
    (confRatings : List (String × ℝ)) : DiGraphR :=
  ⟨G.nodes, G.edges.map (injectEdgeClaimed confRatings)⟩

/-- The failing input for C1: a team graph with an intra-SEC edge, an
intra-Big 12 edge and a cross-conference edge, all of weight 1. -/
def G₁ : DiGraphR :=
  ⟨["Alabama", "Georgia", "Oklahoma", "Texas", "Ohio State"],
   [("Alabama", "Georgia", 1), ("Oklahoma", "Texas", 1),
    ("Alabama", "Ohio State", 1)]⟩

/-- Conference ratings for the failing input (the values used by the
repository's own test `test_conference_injection_integration`). -/
noncomputable def S₁ : List (String × ℝ) := [("SEC", 2 / 5), ("MAC", 7 / 10)]

/- ------------------------------------------------------------------
Game records and the graph-construction entry points
(src/graph.py, GraphBuilder.build_graphs / rebuild_full_graph)
------------------------------------------------------------------ -/

/-- One processed game row, with the fields graph construction reads
(src/ingest.py lines 272-298 produce them). -/
structure GameRecord where
  winner : String
  loser : String
  winner_conference : Option String
  loser_conference : Option String
  week : Nat
  margin : ℚ
  venue : String
  is_bowl : Bool
  cross_conf : Bool
deriving Repr, DecidableEq

/-- The methods that `class WeightCalculator` actually defines
(src/weights.py lines 28-152).  Note there is no `calculate_edge_weights`;
the closest is `calculate_game_weights`. -/
def weightCalculatorMethods : List String :=
  ["margin_factor", "venue_factor", "recency_factor", "shrinkage_weight",
   "win_probability", "risk_multipliers", "surprise_multiplier",
   "calculate_game_weights", "blended_rating"]

/-- Python attribute lookup on a `WeightCalculator` instance: raises
`AttributeError` when the class defines no such method.  (Python resolves the
attribute before evaluating the call's arguments.) -/
def getWeightCalcMethod (attr : String) : Except PyExn Unit :=
  if attr ∈ weightCalculatorMethods then .ok ()
  else .error (.attributeError attr)

/-- A weighted directed graph with rational weights (networkx DiGraph: a node
list plus at most one weighted edge per ordered pair). -/
structure DiGraphQ where
  nodes : List String
  edges : List (String × String × ℚ)
deriving Repr, DecidableEq

/-- `set(games_df['winner'].tolist() + games_df['loser'].tolist())`
(src/graph.py lines 33, 187). -/
def gameTeams (games : List GameRecord) : List String :=
  ((games.map (fun g => g.winner)) ++ (games.map (fun g => g.loser))).dedup

/-- The conference set collected at src/graph.py lines 34-37 / 188-191. -/
def gameConfs (games : List GameRecord) : List String :=
  ((games.filterMap (fun g => g.winner_conference)) ++
   (games.filterMap (fun g => g.loser_conference))).dedup

/-- src/graph.py, `GraphBuilder.build_graphs` (lines 22-104): adds all team /
conference nodes, then processes each game; the first thing each loop
iteration's weight computation does is look up
`self.weight_calc.calculate_edge_weights` (line 70), which raises
`AttributeError`, so for a non-empty frame no edge is ever added and the
error propagates.  For the empty frame the loop body never runs and the two
node-only graphs are returned.  The `prev_ratings` / `current_week`
arguments are consumed only by the unreachable code after the lookup. -/
def build_graphs (games : List GameRecord)
    (_prevRatings : Option (List (String × ℚ))) (_currentWeek : Nat) :
    Except PyExn (DiGraphQ × DiGraphQ) := do
  let confGraph : DiGraphQ := ⟨gameConfs games, []⟩
  let teamGraph : DiGraphQ := ⟨gameTeams games, []⟩
  games.foldlM (fun acc _game => do
      let _method ← getWeightCalcMethod "calculate_edge_weights"
      -- Unreachable: the attribute lookup above always fails.
      pure acc)
    (confGraph, teamGraph)

/-- src/graph.py, `GraphBuilder.rebuild_full_graph` (lines 177-242): the same
structure as `build_graphs` but seeded with the current (hindsight) ratings
and `games_played = 999` to disable shrinkage; its per-game loop performs the
same failing `calculate_edge_weights` lookup (line 214). -/
def rebuild_full_graph (games : List GameRecord)
    (_currentRatings : List (String × ℚ)) :
    Except PyExn (DiGraphQ × DiGraphQ) := do
  let confGraph : DiGraphQ := ⟨gameConfs games, []⟩
  let teamGraph : DiGraphQ := ⟨gameTeams games, []⟩
  games.foldlM (fun acc _game => do
      let _method ← getWeightCalcMethod "calculate_edge_weights"
      -- Unreachable: the attribute lookup above always fails.
      pure acc)
    (confGraph, teamGraph)

/- ------------------------------------------------------------------
src/retro_pipeline.py, RetroPipeline.run_retro
------------------------------------------------------------------ -/

/-- The state threaded through the EM loop of `run_retro`
(src/retro_pipeline.py lines 73-141): current team ratings R, conference
ratings S, the `converged` flag and the number of completed iterations
(`len(iteration_history)`). -/
structure EmState where
  R : List (String × ℚ)
  S : List (String × ℚ)
  converged : Bool
  iterations : Nat
deriving Repr, DecidableEq

/-- The outer EM loop of `run_retro` (src/retro_pipeline.py lines 82-140).
Each iteration first calls `rebuild_full_graph(games_df, R, hindsight=True)`.
With a non-empty frame that call raises (see `build_graphs_attribute_error`),
so the rest of the body — conference PageRank, √S injection, team PageRank,
the convergence check and the history append — is unreachable; with an empty
frame both rebuilt graphs are empty, the team PageRank returns `{}` and the
iteration breaks at `if not R_new` (line 108) before any state change, which
the `.ok st` below reproduces. -/
def emLoop (games : List GameRecord) : Nat → EmState → Except PyExn EmState
  | 0, st => .ok st
  | _k + 1, st => do
    let _graphs ← rebuild_full_graph games st.R
    .ok st

/-- What `run_retro` hands back to its caller: either the except-handler dict
`{'success': False, 'error': str(e), ...}` (src/retro_pipeline.py lines
189-196) or, for `success = True`, the `em_convergence` report fields
(lines 166-172). -/
inductive RetroResult where
  | failure (error : String)
  | success (converged : Bool) (iterations : Nat)
deriving Repr, DecidableEq

/-- src/retro_pipeline.py, `RetroPipeline.run_retro` (lines 32-196), reduced
to the control flow that decides C5: the empty-frame early return (lines
57-59), the EM loop, and the outer `try/except` that converts a raised
exception `e` into `{'success': False, 'error': str(e)}`.  (The post-loop
bootstrap / audit / persistence steps only run when the loop finishes
without raising.) -/
def run_retro (games : List GameRecord) (Rinit : List (String × ℚ))
    (maxOuter : Nat) : RetroResult :=
  if games.isEmpty then .failure "No game data"
  else
    match emLoop games maxOuter ⟨Rinit, [], false, 0⟩ with
    | .error (.attributeError attr) =>
        .failure ("WeightCalculator object has no attribute " ++ attr)
    | .ok st => .success st.converged st.iterations

/- ------------------------------------------------------------------
src/retro_pipeline.py, RetroPipeline._bootstrap_uncertainty
------------------------------------------------------------------ -/

/-- `games_df.sample(n=len(games_df), replace=True, random_state=sample_idx)`
(src/retro_pipeline.py line 226): a multiset of `len(games)` draws with
replacement, the draws given by the RNG oracle `pick` (pandas' seeded RNG),
reduced modulo the frame length.  Sampling from an empty frame with n = 0
yields the empty frame. -/
def sampleWithReplacement (games : List GameRecord) (pick : Nat → Nat) :
    List GameRecord :=
  match games with
  | [] => []
  | g :: gs =>
    (List.range (g :: gs).length).map
      (fun k => (g :: gs).getD (pick k % (g :: gs).length) g)

/-- One bootstrap round (the `try` body, src/retro_pipeline.py lines
224-249): sample, rebuild the graphs, run both PageRanks, and return the
bootstrap team ratings `R_boot`.  With a non-empty frame the rebuild raises
(see `rebuild_full_graph_cons_error`); the rest of the body is reachable only
for the empty frame, where both graphs are empty, the conference fallback
yields `{}`, the injection is a no-op and the team PageRank returns `{}`,
which the final `.ok []` reproduces. -/
def bootstrapRound (games : List GameRecord)
    (finalRatings : List (String × ℚ)) (pick : Nat → Nat) :
    Except PyExn (List (String × ℚ)) := do
  let _graphs ← rebuild_full_graph (sampleWithReplacement games pick) finalRatings
  .ok []

/-- The per-round outcome as the loop records it (src/retro_pipeline.py
lines 220-253): an exception is caught and the round skipped (`continue`),
and a round whose team ratings are empty is likewise not appended
(`if R_boot and len(R_boot) > 0`). -/
def roundOutcome (games : List GameRecord)
    (finalRatings : List (String × ℚ)) (picks : Nat → Nat → Nat)
    (i : Nat) : Option (List (String × ℚ)) :=
  match bootstrapRound games finalRatings (picks i) with
  | .error _ => none
  | .ok rBoot => if rBoot.isEmpty then none else some rBoot

/-- The uncertainty report fields claim C9 is about
(src/retro_pipeline.py lines 255-274): the completed/requested counts, the
availability flag, and the list of successful rating maps that the
aggregated statistics are computed from. -/
structure BootstrapReport where
  samplesCompleted : Nat
  samplesRequested : Nat
  uncertaintyAvailable : Bool
  completedRatings : List (List (String × ℚ))
deriving Repr, DecidableEq

/-- src/retro_pipeline.py, `RetroPipeline._bootstrap_uncertainty` (lines
198-274): run `n` rounds, keep the successful ones, and return the
unavailable report when none succeeded. -/
def bootstrap_uncertainty (games : List GameRecord)
    (finalRatings : List (String × ℚ)) (picks : Nat → Nat → Nat)
    (n : Nat) : BootstrapReport :=
  let results := (List.range n).filterMap (roundOutcome games finalRatings picks)
  if results.isEmpty then ⟨0, n, false, []⟩
  else ⟨results.length, n, true, results⟩

/- ------------------------------------------------------------------
src/pagerank.py, PageRankCalculator.pagerank
------------------------------------------------------------------ -/

/-- `G.out_edges(node, data=True)` (src/pagerank.py line 44). -/
def DiGraphQ.outEdges (G : DiGraphQ) (u : String) :
    List (String × String × ℚ) :=
  G.edges.filter (fun e => e.1 == u)

/-- The column entry `M[node_to_idx[v], node_to_idx[u]]` of the transition
matrix built at src/pagerank.py lines 41-57: a dangling node (no out-edges)
and a node whose total outgoing weight is 0 send `1/n` to every node;
otherwise `u` sends `weight(u→v)/total` to each out-neighbour `v` and 0
elsewhere (the filter-sum is that single weight, the graph having at most
one edge per ordered pair). -/
def transition (G : DiGraphQ) (u v : String) : ℚ :=
  if (G.outEdges u).isEmpty then 1 / (G.nodes.length : ℚ)
  else if ((G.outEdges u).map (fun e => e.2.2)).sum = 0 then
    1 / (G.nodes.length : ℚ)
  else
    (((G.outEdges u).filter (fun e => e.2.1 == v)).map (fun e => e.2.2)).sum /
      ((G.outEdges u).map (fun e => e.2.2)).sum

/-- One power-iteration step `pr_new = d * M.dot(pr) + (1 - d) * pers`
(src/pagerank.py line 75). -/
def pagerankStep (G : DiGraphQ) (d : ℚ) (pers pr : String → ℚ) :
    String → ℚ :=
  fun v =>
    d * (G.nodes.map (fun u => transition G u v * pr u)).sum + (1 - d) * pers v

/-- The convergence measure `np.abs(pr_new - pr).max()`
(src/pagerank.py line 78). -/
def maxAbsDiff (G : DiGraphQ) (a b : String → ℚ) : ℚ :=
  (G.nodes.map (fun v => |a v - b v|)).foldr max 0

/-- The iteration loop of src/pagerank.py lines 74-85: up to `maxIter`
steps; when a step's difference drops below the tolerance the loop breaks
and returns the CURRENT iterate (the Python `break` fires before
`pr = pr_new`); on exhausting the cap it returns the last iterate (the
`for`'s `else` branch only logs a warning). -/
def powerLoop (G : DiGraphQ) (d tol : ℚ) (pers : String → ℚ) :
    Nat → (String → ℚ) → (String → ℚ)
  | 0, pr => pr
  | k + 1, pr =>
    if maxAbsDiff G (pagerankStep G d pers pr) pr < tol then pr
    else powerLoop G d tol pers k (pagerankStep G d pers pr)

/-- The uniform vector `np.ones(n) / n` (src/pagerank.py lines 64, 71). -/
def uniformVec (G : DiGraphQ) : String → ℚ :=
  fun _ => 1 / (G.nodes.length : ℚ)

/-- `v = v / v.sum()` normalization of a provided personalization or initial
ratings vector (src/pagerank.py lines 61-62, 68-69; the dict is read with
default `1/n` through the total function `p`). -/
def normalizeOn (G : DiGraphQ) (p : String → ℚ) : String → ℚ :=
  fun v => p v / (G.nodes.map p).sum

/-- The starting/personalization vector: normalized when provided, uniform
otherwise (src/pagerank.py lines 60-71). -/
def startVec (G : DiGraphQ) : Option (String → ℚ) → (String → ℚ)
  | some p => normalizeOn G p
  | none => uniformVec G

/-- src/pagerank.py, `PageRankCalculator.pagerank` (lines 19-91): `{}` for
the empty graph, otherwise the power iteration from the (normalized) initial
vector with the (normalized) personalization vector, read back as a
node → score map.  The function is total: every branch of the source returns
a value. -/
def pagerank (G : DiGraphQ) (d tol : ℚ) (maxIter : Nat)
    (personalization initialRatings : Option (String → ℚ)) :
    List (String × ℚ) :=
  if G.nodes.isEmpty then []
  else
    G.nodes.map (fun v =>
      (v, powerLoop G d tol (startVec G personalization) maxIter
            (startVec G initialRatings) v))

/-- Well-formedness facts that every networkx `DiGraph` satisfies: node list
without duplicates, edge endpoints drawn from the node list, and at most one
edge per ordered pair. -/
def DiGraphQ.WF (G : DiGraphQ) : Prop :=
  G.nodes.Nodup ∧
  (∀ e ∈ G.edges, e.1 ∈ G.nodes ∧ e.2.1 ∈ G.nodes) ∧
  (G.edges.map (fun e => (e.1, e.2.1))).Nodup

instance (G : DiGraphQ) : Decidable G.WF := by
  unfold DiGraphQ.WF
  infer_instance

/-- Non-negative edge weights. -/
def DiGraphQ.NonnegWeights (G : DiGraphQ) : Prop :=
  ∀ e ∈ G.edges, 0 ≤ e.2.2

instance (G : DiGraphQ) : Decidable G.NonnegWeights := by
  unfold DiGraphQ.NonnegWeights
  infer_instance

/- ------------------------------------------------------------------
src/bias_audit.py, BiasAudit.compute_neutrality_metric
------------------------------------------------------------------ -/

/-- src/bias_audit.py, `BiasAudit._get_team_conference_mapping` (lines
209-243): the hardcoded conference rosters, in source order. -/
def biasAuditConfTeams : List (String × List String) :=
  [("SEC", ["Alabama", "Georgia", "LSU", "Florida", "Auburn", "Tennessee",
            "Texas A&M", "South Carolina", "Kentucky", "Vanderbilt",
            "Mississippi State", "Ole Miss", "Arkansas", "Missouri"]),
   ("Big Ten", ["Ohio State", "Michigan", "Penn State", "Wisconsin",
                "Iowa", "Minnesota", "Illinois", "Northwestern",
                "Michigan State", "Indiana", "Purdue", "Nebraska",
                "Maryland", "Rutgers"]),
   ("Big 12", ["Oklahoma", "Texas", "Oklahoma State", "Baylor",
               "TCU", "West Virginia", "Kansas State", "Iowa State",
               "Texas Tech", "Kansas"]),
   ("ACC", ["Clemson", "North Carolina", "NC State", "Virginia Tech",
            "Virginia", "Miami", "Florida State", "Georgia Tech",
            "Duke", "Wake Forest", "Pittsburgh", "Syracuse",
            "Boston College", "Louisville"]),
   ("Pac-12", ["USC", "UCLA", "Oregon", "Washington", "Stanford",
               "California", "Oregon State", "Washington State",
               "Utah", "Colorado", "Arizona", "Arizona State"])]

/-- `team_to_conf.get(team)`: `none` for a team outside the hardcoded
rosters (such teams are skipped by the conference accumulation at
src/bias_audit.py lines 51-56 but still count towards the global mean). -/
def biasTeamConf (team : String) : Option String :=
  (biasAuditConfTeams.find? (fun p => p.2.contains team)).map (fun p => p.1)

/-- `np.mean` of a list of ratings. -/
def listMean (l : List ℚ) : ℚ := l.sum / (l.length : ℚ)

/-- The `conf_means` accumulation of src/bias_audit.py lines 50-56: team
ratings bucketed by mapped conference, teams without a conference skipped;
a bucket for each conference that received at least one team. -/
def confGroups (teamRatings : List (String × ℚ)) : List (String × List ℚ) :=
  (((teamRatings.filterMap
      (fun p => (biasTeamConf p.1).map (fun c => (c, p.2)))).map
        (fun q => q.1)).dedup).map
    (fun c => (c, ((teamRatings.filterMap
      (fun p => (biasTeamConf p.1).map (fun c => (c, p.2)))).filter
        (fun q => q.1 == c)).map (fun q => q.2)))

/-- The per-conference deviations `|mean(R|c) - global_mean|` of
src/bias_audit.py lines 62-71. -/
def confDeviations (teamRatings : List (String × ℚ)) : List ℚ :=
  (confGroups teamRatings).map
    (fun g => |listMean g.2 - listMean (teamRatings.map (fun p => p.2))|)

/-- src/bias_audit.py, `BiasAudit.compute_neutrality_metric` (lines 28-76):
0.0 for an empty rating map, otherwise the running
`max_deviation = max(max_deviation, deviation)` accumulation started at
0.0 over the per-conference deviations. -/
def compute_neutrality_metric (teamRatings : List (String × ℚ)) : ℚ :=
  if teamRatings.isEmpty then 0
  else (confDeviations teamRatings).foldl max 0

/- ==================================================================
LEMMAS AND THEOREMS
================================================================== -/

/- ------------------------------------------------------------------
C6 : margin factor
------------------------------------------------------------------ -/

lemma two_rpow_five : (2 : ℝ) ^ (5 : ℝ) = 32 := by
  rw [show (5 : ℝ) = ((5 : ℕ) : ℝ) by norm_num, Real.rpow_natCast]
  norm_num

lemma two_le_two_rpow {c : ℝ} (hc : 1 ≤ c) : (2 : ℝ) ≤ (2 : ℝ) ^ c := by
  calc (2 : ℝ) = (2 : ℝ) ^ (1 : ℝ) := (Real.rpow_one 2).symm
  _ ≤ (2 : ℝ) ^ c := by
      exact (Real.rpow_le_rpow_left_iff (by norm_num)).mpr hc

/-- C6 counterexample: with the margin cap configured to 5 (the value used by
the repository's own tests), the margins 6 and 7 both exceed the cap yet give
different margin factors, so the factor is not flat above the configured cap.
The code clamps the margin at `2 ** margin_cap - 1 = 31`, not at `margin_cap`. -/
theorem margin_factor_not_flat_above_cap :
    (5 : ℝ) < 6 ∧ (5 : ℝ) < 7 ∧ margin_factor 5 6 ≠ margin_factor 5 7 := by
  refine ⟨by norm_num, by norm_num, ?_⟩
  unfold margin_factor
  rw [two_rpow_five]
  have h6 : min (max (6 : ℝ) 1) (32 - 1) = 6 := by norm_num
  have h7 : min (max (7 : ℝ) 1) (32 - 1) = 7 := by norm_num
  rw [h6, h7]
  have : Real.logb 2 (1 + 6) < Real.logb 2 (1 + 7) :=
    Real.logb_lt_logb (by norm_num) (by norm_num) (by norm_num)
  exact ne_of_lt this

/-- C6 amended: `margin_factor` computes `log2(1 + clamp(margin, 1, 2**cap - 1))`
(so the OUTPUT is capped at `cap`).  For every cap ≥ 1 it equals exactly 1 at
margin 1, is non-decreasing in the margin, and is flat exactly for margins at
or above `2**cap - 1` where it equals `cap`. -/
theorem margin_factor_amended (cap : ℝ) (hcap : 1 ≤ cap) :
    margin_factor cap 1 = 1 ∧
    (∀ m₁ m₂ : ℝ, m₁ ≤ m₂ → margin_factor cap m₁ ≤ margin_factor cap m₂) ∧
    (∀ m : ℝ, (2 : ℝ) ^ cap - 1 ≤ m → margin_factor cap m = cap) := by
  have hpow : (2 : ℝ) ≤ (2 : ℝ) ^ cap := two_le_two_rpow hcap
  have hcap1 : (1 : ℝ) ≤ (2 : ℝ) ^ cap - 1 := by linarith
  refine ⟨?_, ?_, ?_⟩
  · unfold margin_factor
    rw [max_self, min_eq_left hcap1]
    norm_num
  · intro m₁ m₂ h
    unfold margin_factor
    have hmono : min (max m₁ 1) ((2 : ℝ) ^ cap - 1)
        ≤ min (max m₂ 1) ((2 : ℝ) ^ cap - 1) :=
      min_le_min (max_le_max h le_rfl) le_rfl
    have hlow : (1 : ℝ) ≤ min (max m₁ 1) ((2 : ℝ) ^ cap - 1) :=
      le_min (le_max_right m₁ 1) hcap1
    exact Real.logb_le_logb_of_le (by norm_num) (by linarith) (by linarith)
  · intro m hm
    unfold margin_factor
    have h1m : (1 : ℝ) ≤ m := le_trans hcap1 hm
    rw [max_eq_left h1m, min_eq_right hm]
    have : (1 : ℝ) + ((2 : ℝ) ^ cap - 1) = (2 : ℝ) ^ cap := by ring
    rw [this]
    exact Real.logb_rpow (by norm_num) (by norm_num)

/-- C6 witness: the amended theorem applied at the concrete cap 5 and concrete
margins. -/
theorem margin_factor_amended_witness :
    margin_factor 5 1 = 1 ∧ margin_factor 5 2 ≤ margin_factor 5 3 ∧
    margin_factor 5 31 = 5 := by
  obtain ⟨h1, h2, h3⟩ := margin_factor_amended 5 (by norm_num)
  refine ⟨h1, h2 2 3 (by norm_num), ?_⟩
  have h32 : (2 : ℝ) ^ (5 : ℝ) - 1 ≤ 31 := by rw [two_rpow_five]; norm_num
  exact h3 31 h32

/- ------------------------------------------------------------------
C7 : risk multipliers
------------------------------------------------------------------ -/

/-- C7 counterexample: the claim states strict monotonicity in `p` on all of
(0, 1), but the code first clamps `p` to `[0.001, 0.999]`; the probabilities
1/4000 < 1/2000 both lie in (0, 1) yet produce identical credit and penalty
values (both clamp to 0.001). -/
theorem risk_multipliers_not_strict_on_unit_interval :
    (0 : ℝ) < 1 / 4000 ∧ (1 / 4000 : ℝ) < 1 / 2000 ∧ (1 / 2000 : ℝ) < 1 ∧
    risk_multipliers 1 1 (1 / 4000) = risk_multipliers 1 1 (1 / 2000) := by
  refine ⟨by norm_num, by norm_num, by norm_num, ?_⟩
  unfold risk_multipliers
  have ha : max (1 / 1000 : ℝ) (min (999 / 1000) (1 / 4000)) = 1 / 1000 := by
    norm_num
  have hb : max (1 / 1000 : ℝ) (min (999 / 1000) (1 / 2000)) = 1 / 1000 := by
    norm_num
  rw [ha, hb]

/-- C7 amended: for every base weight b > 0 and risk exponent B > 0, the
credit value is strictly decreasing and the penalty value strictly increasing
in the expected win probability, for probabilities inside the clamp range
`[0.001, 0.999]` (the code clamps `p` into this range first, so outside it the
multipliers are constant). -/
theorem risk_multipliers_amended (B b p₁ p₂ : ℝ) (hB : 0 < B) (hb : 0 < b)
    (h₁ : 1 / 1000 ≤ p₁) (h₂ : p₂ ≤ 999 / 1000) (h₁₂ : p₁ < p₂) :
    (risk_multipliers B b p₂).1 < (risk_multipliers B b p₁).1 ∧
    (risk_multipliers B b p₁).2 < (risk_multipliers B b p₂).2 := by
  have h₁' : p₁ ≤ 999 / 1000 := le_of_lt (lt_of_lt_of_le h₁₂ h₂)
  have h₂' : 1 / 1000 ≤ p₂ := le_of_lt (lt_of_le_of_lt h₁ h₁₂)
  have e₁ : max (1 / 1000 : ℝ) (min (999 / 1000) p₁) = p₁ := by
    rw [min_eq_right h₁', max_eq_right h₁]
  have e₂ : max (1 / 1000 : ℝ) (min (999 / 1000) p₂) = p₂ := by
    rw [min_eq_right h₂, max_eq_right h₂']
  unfold risk_multipliers
  rw [e₁, e₂]
  constructor
  · have hc : (0 : ℝ) < (1 / 2 : ℝ) ^ B := Real.rpow_pos_of_pos (by norm_num) B
    have hnum : (1 - p₂) / (1 / 2 : ℝ) ^ B < (1 - p₁) / (1 / 2 : ℝ) ^ B :=
      div_lt_div_of_pos_right (by linarith) hc
    exact mul_lt_mul_of_pos_left hnum hb
  · have hbase : p₁ / (1 / 2 : ℝ) < p₂ / (1 / 2 : ℝ) :=
      div_lt_div_of_pos_right h₁₂ (by norm_num)
    have hpos : (0 : ℝ) ≤ p₁ / (1 / 2 : ℝ) := by positivity
    have := Real.rpow_lt_rpow hpos hbase hB
    exact mul_lt_mul_of_pos_left this hb

/-- C7 witness: the amended theorem applied at B = 1, b = 1, p₁ = 1/4,
p₂ = 1/2. -/
theorem risk_multipliers_amended_witness :
    (risk_multipliers 1 1 (1 / 2)).1 < (risk_multipliers 1 1 (1 / 4)).1 ∧
    (risk_multipliers 1 1 (1 / 4)).2 < (risk_multipliers 1 1 (1 / 2)).2 :=
  risk_multipliers_amended 1 1 (1 / 4) (1 / 2) (by norm_num) (by norm_num)
    (by norm_num) (by norm_num) (by norm_num)

/- ------------------------------------------------------------------
C8 : venue factor
------------------------------------------------------------------ -/

/-- C8: with the configured factors (home 1.1, neutral 1.0, road 0.9), the
code returns 1.1 for `"home"` and 1.0 for `"neutral"`, but for the venue value
`"away"` — the value the ingestion layer actually produces for every
non-neutral game won by the visiting team — it falls through to the neutral
default 1.0 instead of the 0.9 the claim states, because the lookup table
keys on `"road"`, a value `ingestVenue` never produces. -/
theorem venue_factor_away_gets_neutral :
    venue_factor ⟨11 / 10, 1, 9 / 10⟩ "home" = 11 / 10 ∧
    venue_factor ⟨11 / 10, 1, 9 / 10⟩ "neutral" = 1 ∧
    venue_factor ⟨11 / 10, 1, 9 / 10⟩ "away" = 1 ∧
    venue_factor ⟨11 / 10, 1, 9 / 10⟩ "away" ≠ 9 / 10 ∧
    ingestVenue false 10 20 = "away" ∧
    ∀ (ns : Bool) (hs as : ℤ), ingestVenue ns hs as ≠ "road" := by
  have haway : venue_factor ⟨11 / 10, 1, 9 / 10⟩ "away" = 1 := rfl
  refine ⟨rfl, rfl, haway, by rw [haway]; norm_num, rfl, ?_⟩
  intro ns hs as
  unfold ingestVenue
  split
  · decide
  · split
    · decide
    · decide

/- ------------------------------------------------------------------
C1 : conference-strength injection
------------------------------------------------------------------ -/

/-- C1: the code scales the intra-SEC edge by the ABSOLUTE factor
`sqrt(0.4) ≈ 0.632` and leaves the intra-Big 12 edge (whose conference is
missing from S) completely unscaled, while the claimed relative scaling
(mean(S) = 0.55) would give `sqrt(0.4 / 0.55) ≈ 0.853` and
`sqrt(0.5 / 0.55) ≈ 0.953`; the two behaviours differ on this input.
Cross-conference edges are unchanged by both. -/
theorem inject_conf_strength_diverges :
    (inject_conf_strength G₁ S₁).edges =
      [("Alabama", "Georgia", 1 * Real.sqrt (2 / 5)),
       ("Oklahoma", "Texas", (1 : ℝ)),
       ("Alabama", "Ohio State", (1 : ℝ))] ∧
    (inject_conf_strength_claimed G₁ S₁).edges =
      [("Alabama", "Georgia", 1 * Real.sqrt ((2 / 5) / (11 / 20))),
       ("Oklahoma", "Texas", 1 * Real.sqrt ((1 / 2) / (11 / 20))),
       ("Alabama", "Ohio State", (1 : ℝ))] ∧
    inject_conf_strength G₁ S₁ ≠ inject_conf_strength_claimed G₁ S₁ := by
  have hsqrt : Real.sqrt (2 / 5) ≠ Real.sqrt ((2 / 5) / (11 / 20)) :=
    ne_of_lt (Real.sqrt_lt_sqrt (by norm_num) (by norm_num))
  have tAla : teamConference "Alabama" = "SEC" := rfl
  have tGeo : teamConference "Georgia" = "SEC" := rfl
  have tOkl : teamConference "Oklahoma" = "Big 12" := rfl
  have tTex : teamConference "Texas" = "Big 12" := rfl
  have tOSU : teamConference "Ohio State" = "Big Ten" := rfl
  have lSEC : S₁.lookup "SEC" = some (2 / 5 : ℝ) := rfl
  have lB12 : S₁.lookup "Big 12" = none := rfl
  have hmean : ((S₁.map (fun p => p.2)).sum) / (S₁.length : ℝ) = 11 / 20 := by
    show ((2 / 5 : ℝ) + (7 / 10 + 0)) / ((2 : ℕ) : ℝ) = 11 / 20
    norm_num
  have e1 : injectEdge S₁ ("Alabama", "Georgia", 1) =
      ("Alabama", "Georgia", 1 * Real.sqrt (2 / 5)) := by
    unfold injectEdge
    rw [show ("Alabama", "Georgia", (1 : ℝ)).1 = "Alabama" from rfl]
    rw [tAla, tGeo, if_pos rfl, lSEC]
  have e2 : injectEdge S₁ ("Oklahoma", "Texas", 1) = ("Oklahoma", "Texas", (1 : ℝ)) := by
    unfold injectEdge
    rw [show ("Oklahoma", "Texas", (1 : ℝ)).1 = "Oklahoma" from rfl]
    rw [tOkl, tTex, if_pos rfl, lB12]
  have e3 : injectEdge S₁ ("Alabama", "Ohio State", 1) =
      ("Alabama", "Ohio State", (1 : ℝ)) := by
    unfold injectEdge
    rw [show ("Alabama", "Ohio State", (1 : ℝ)).1 = "Alabama" from rfl]
    rw [tAla, tOSU, if_neg (by decide)]
  have f1 : injectEdgeClaimed S₁ ("Alabama", "Georgia", 1) =
      ("Alabama", "Georgia", 1 * Real.sqrt ((2 / 5) / (11 / 20))) := by
    unfold injectEdgeClaimed
    rw [show ("Alabama", "Georgia", (1 : ℝ)).1 = "Alabama" from rfl]
    rw [tAla, tGeo, if_pos rfl, lSEC, hmean]
    rfl
  have f2 : injectEdgeClaimed S₁ ("Oklahoma", "Texas", 1) =
      ("Oklahoma", "Texas", 1 * Real.sqrt ((1 / 2) / (11 / 20))) := by
    unfold injectEdgeClaimed
    rw [show ("Oklahoma", "Texas", (1 : ℝ)).1 = "Oklahoma" from rfl]
    rw [tOkl, tTex, if_pos rfl, lB12, hmean]
    rfl
  have f3 : injectEdgeClaimed S₁ ("Alabama", "Ohio State", 1) =
      ("Alabama", "Ohio State", (1 : ℝ)) := by
    unfold injectEdgeClaimed
    rw [show ("Alabama", "Ohio State", (1 : ℝ)).1 = "Alabama" from rfl]
    rw [tAla, tOSU, if_neg (by decide)]
  have h1 : (inject_conf_strength G₁ S₁).edges =
      [("Alabama", "Georgia", 1 * Real.sqrt (2 / 5)),
       ("Oklahoma", "Texas", (1 : ℝ)),
       ("Alabama", "Ohio State", (1 : ℝ))] := by
    show List.map (injectEdge S₁) G₁.edges = _
    rw [show G₁.edges = [("Alabama", "Georgia", (1 : ℝ)),
        ("Oklahoma", "Texas", 1), ("Alabama", "Ohio State", 1)] from rfl]
    rw [List.map_cons, List.map_cons, List.map_cons, List.map_nil, e1, e2, e3]
  have h2 : (inject_conf_strength_claimed G₁ S₁).edges =
      [("Alabama", "Georgia", 1 * Real.sqrt ((2 / 5) / (11 / 20))),
       ("Oklahoma", "Texas", 1 * Real.sqrt ((1 / 2) / (11 / 20))),
       ("Alabama", "Ohio State", (1 : ℝ))] := by
    show List.map (injectEdgeClaimed S₁) G₁.edges = _
    rw [show G₁.edges = [("Alabama", "Georgia", (1 : ℝ)),
        ("Oklahoma", "Texas", 1), ("Alabama", "Ohio State", 1)] from rfl]
    rw [List.map_cons, List.map_cons, List.map_cons, List.map_nil, f1, f2, f3]
  refine ⟨h1, h2, ?_⟩
  intro h
  have he := congrArg DiGraphR.edges h
  rw [h1, h2] at he
  simp only [List.cons.injEq, Prod.mk.injEq] at he
  exact hsqrt (by linarith [he.1.2.2])

/- ------------------------------------------------------------------
C3 : the missing calculate_edge_weights method
------------------------------------------------------------------ -/

/-- A monadic fold over a non-empty list whose step always fails with the
same error fails with that error. -/
lemma foldlM_first_error {α β : Type} (g : α) (gs : List α) (init : β)
    (f : β → α → Except PyExn β)
    (hf : ∀ b a, f b a = .error (.attributeError "calculate_edge_weights")) :
    List.foldlM f init (g :: gs) =
      .error (.attributeError "calculate_edge_weights") := by
  rw [List.foldlM_cons, hf]
  rfl

/-- `build_graphs` on a non-empty frame stops at the first game's failing
attribute lookup. -/
lemma build_graphs_cons_error (g : GameRecord) (gs : List GameRecord)
    (prevRatings : Option (List (String × ℚ))) (currentWeek : Nat) :
    build_graphs (g :: gs) prevRatings currentWeek =
      .error (.attributeError "calculate_edge_weights") := by
  unfold build_graphs
  exact foldlM_first_error g gs (⟨gameConfs (g :: gs), []⟩,
    ⟨gameTeams (g :: gs), []⟩) _ (fun b a => rfl)

/-- `rebuild_full_graph` on a non-empty frame stops at the first game's
failing attribute lookup. -/
lemma rebuild_full_graph_cons_error (g : GameRecord) (gs : List GameRecord)
    (currentRatings : List (String × ℚ)) :
    rebuild_full_graph (g :: gs) currentRatings =
      .error (.attributeError "calculate_edge_weights") := by
  unfold rebuild_full_graph
  exact foldlM_first_error g gs (⟨gameConfs (g :: gs), []⟩,
    ⟨gameTeams (g :: gs), []⟩) _ (fun b a => rfl)

/-- C3: on every non-empty game frame, both graph-construction entry points
stop with `AttributeError: 'WeightCalculator' object has no attribute
'calculate_edge_weights'` while processing the first game, for every choice
of prior ratings and reference week; no graph is ever produced. -/
theorem build_graphs_attribute_error (games : List GameRecord)
    (prevRatings : Option (List (String × ℚ))) (currentWeek : Nat)
    (currentRatings : List (String × ℚ)) (h : games ≠ []) :
    build_graphs games prevRatings currentWeek =
      .error (.attributeError "calculate_edge_weights") ∧
    rebuild_full_graph games currentRatings =
      .error (.attributeError "calculate_edge_weights") := by
  obtain ⟨g, gs, rfl⟩ := List.exists_cons_of_ne_nil h
  exact ⟨build_graphs_cons_error g gs prevRatings currentWeek,
         rebuild_full_graph_cons_error g gs currentRatings⟩

/-- C3 witness: the theorem applied to a concrete one-game frame. -/
theorem build_graphs_attribute_error_witness :
    build_graphs [⟨"Alabama", "Georgia", some "SEC", some "SEC", 1, 7, "home",
        false, false⟩] none 1 =
      .error (.attributeError "calculate_edge_weights") ∧
    rebuild_full_graph [⟨"Alabama", "Georgia", some "SEC", some "SEC", 1, 7,
        "home", false, false⟩] [] =
      .error (.attributeError "calculate_edge_weights") :=
  build_graphs_attribute_error
    [⟨"Alabama", "Georgia", some "SEC", some "SEC", 1, 7, "home", false,
      false⟩] none 1 [] (by simp)

/- ------------------------------------------------------------------
C5 : the run_retro EM loop
------------------------------------------------------------------ -/

/-- C5: for every non-empty game frame and at least one permitted outer
iteration, the hindsight EM loop of `run_retro` never completes a single
iteration: the first iteration's graph rebuild raises `AttributeError`, the
surrounding handler catches it, and the caller receives a
`success = False` error result that carries no `converged` flag at all —
instead of the claimed up-to-`max_outer` iterations with a convergence
check. -/
theorem run_retro_attribute_error (games : List GameRecord)
    (Rinit : List (String × ℚ)) (maxOuter : Nat)
    (hg : games ≠ []) (hm : 1 ≤ maxOuter) :
    run_retro games Rinit maxOuter =
      .failure "WeightCalculator object has no attribute calculate_edge_weights" := by
  obtain ⟨g, gs, rfl⟩ := List.exists_cons_of_ne_nil hg
  obtain ⟨k, rfl⟩ : ∃ k, maxOuter = k + 1 :=
    ⟨maxOuter - 1, (Nat.succ_pred_eq_of_pos hm).symm⟩
  unfold run_retro
  rw [if_neg (by simp)]
  have hloop : emLoop (g :: gs) (k + 1) ⟨Rinit, [], false, 0⟩ =
      .error (.attributeError "calculate_edge_weights") := by
    have hstep : emLoop (g :: gs) (k + 1) ⟨Rinit, [], false, 0⟩ =
        (do
          let _graphs ← rebuild_full_graph (g :: gs) Rinit
          Except.ok (⟨Rinit, [], false, 0⟩ : EmState)) := rfl
    rw [hstep, rebuild_full_graph_cons_error g gs Rinit]
    rfl
  rw [hloop]
  rfl

/-- C5 witness: the theorem applied to a concrete one-game frame. -/
theorem run_retro_attribute_error_witness :
    run_retro [⟨"Alabama", "Georgia", some "SEC", some "SEC", 1, 7, "home",
        false, false⟩] [("Alabama", 1 / 2)] 6 =
      .failure "WeightCalculator object has no attribute calculate_edge_weights" :=
  run_retro_attribute_error
    [⟨"Alabama", "Georgia", some "SEC", some "SEC", 1, 7, "home", false,
      false⟩] [("Alabama", 1 / 2)] 6 (by simp) (by norm_num)

/- ------------------------------------------------------------------
C9 : bootstrap uncertainty
------------------------------------------------------------------ -/

lemma filterMap_eq_nil_of_forall_none {α β : Type} (f : α → Option β) :
    ∀ (l : List α), (∀ x ∈ l, f x = none) → l.filterMap f = []
  | [], _ => rfl
  | x :: xs, h => by
    rw [List.filterMap_cons, h x (List.mem_cons_self x xs)]
    exact filterMap_eq_nil_of_forall_none f xs
      (fun y hy => h y (List.mem_cons_of_mem x hy))

/-- C9: (1) every bootstrap round draws exactly `len(games)` games (with
replacement, via the RNG oracle); (2) the completed-sample count is exactly
the number of successful rounds — rounds that raised contribute nothing to
`completedRatings` and are excluded from the count; (3) when none of the
requested rounds succeeds the method returns the `uncertainty_available =
False` report instead of raising; and (4) on every non-empty game frame this
is what actually happens, since each round's graph rebuild raises
`AttributeError` and is caught and skipped. -/
theorem bootstrap_uncertainty_soft_failure (games : List GameRecord)
    (finalRatings : List (String × ℚ)) (picks : Nat → Nat → Nat) (n : Nat) :
    (∀ i, (sampleWithReplacement games (picks i)).length = games.length) ∧
    (bootstrap_uncertainty games finalRatings picks n).samplesCompleted =
      ((List.range n).filterMap (roundOutcome games finalRatings picks)).length ∧
    ((∀ i < n, roundOutcome games finalRatings picks i = none) →
      bootstrap_uncertainty games finalRatings picks n = ⟨0, n, false, []⟩) ∧
    (games ≠ [] →
      bootstrap_uncertainty games finalRatings picks n = ⟨0, n, false, []⟩) := by
  have hlen : ∀ i, (sampleWithReplacement games (picks i)).length = games.length := by
    intro i
    cases games with
    | nil => rfl
    | cons g gs => simp [sampleWithReplacement]
  have hallnone : (∀ i < n, roundOutcome games finalRatings picks i = none) →
      bootstrap_uncertainty games finalRatings picks n = ⟨0, n, false, []⟩ := by
    intro hnone
    unfold bootstrap_uncertainty
    rw [filterMap_eq_nil_of_forall_none _ (List.range n)
      (fun i hi => hnone i (List.mem_range.mp hi))]
    rfl
  refine ⟨hlen, ?_, hallnone, ?_⟩
  · unfold bootstrap_uncertainty
    by_cases hres :
        ((List.range n).filterMap (roundOutcome games finalRatings picks)).isEmpty
    · rw [if_pos hres]
      rw [List.isEmpty_iff] at hres
      rw [hres]
      rfl
    · rw [if_neg hres]
  · intro hne
    apply hallnone
    intro i _
    obtain ⟨g, gs, rfl⟩ := List.exists_cons_of_ne_nil hne
    have hsample : sampleWithReplacement (g :: gs) (picks i) ≠ [] := by
      intro hcontra
      have := hlen i
      rw [hcontra] at this
      exact absurd this.symm (by simp)
    obtain ⟨s, ss, hcons⟩ := List.exists_cons_of_ne_nil hsample
    have hround : bootstrapRound (g :: gs) finalRatings (picks i) =
        .error (.attributeError "calculate_edge_weights") := by
      unfold bootstrapRound
      rw [hcons, rebuild_full_graph_cons_error s ss finalRatings]
      rfl
    unfold roundOutcome
    rw [hround]

/-- C9 witness: the theorem applied to a concrete one-game frame and 25
requested rounds; all 25 rounds fail and the unavailable report is
returned. -/
theorem bootstrap_uncertainty_soft_failure_witness :
    bootstrap_uncertainty [⟨"Alabama", "Georgia", some "SEC", some "SEC", 1,
        7, "home", false, false⟩] [("Alabama", 1 / 2)] (fun _ _ => 0) 25 =
      ⟨0, 25, false, []⟩ :=
  (bootstrap_uncertainty_soft_failure
    [⟨"Alabama", "Georgia", some "SEC", some "SEC", 1, 7, "home", false,
      false⟩] [("Alabama", 1 / 2)] (fun _ _ => 0) 25).2.2.2 (by simp)

/- ------------------------------------------------------------------
List-sum helper lemmas for the PageRank mass argument
------------------------------------------------------------------ -/

lemma sum_map_const {α : Type} (l : List α) (c : ℚ) :
    (l.map (fun _ => c)).sum = (l.length : ℚ) * c := by
  induction l with
  | nil => simp
  | cons x xs ih =>
    simp only [List.map_cons, List.sum_cons, ih, List.length_cons]
    push_cast
    ring

lemma sum_map_add {α : Type} (l : List α) (f g : α → ℚ) :
    (l.map (fun x => f x + g x)).sum = (l.map f).sum + (l.map g).sum := by
  induction l with
  | nil => simp
  | cons x xs ih =>
    simp only [List.map_cons, List.sum_cons, ih]
    ring

lemma sum_map_mul_left {α : Type} (l : List α) (f : α → ℚ) (c : ℚ) :
    (l.map (fun x => c * f x)).sum = c * (l.map f).sum := by
  induction l with
  | nil => simp
  | cons x xs ih =>
    simp only [List.map_cons, List.sum_cons, ih]
    ring

lemma sum_map_mul_right {α : Type} (l : List α) (f : α → ℚ) (c : ℚ) :
    (l.map (fun x => f x * c)).sum = (l.map f).sum * c := by
  induction l with
  | nil => simp
  | cons x xs ih =>
    simp only [List.map_cons, List.sum_cons, ih]
    ring

lemma sum_map_div {α : Type} (l : List α) (f : α → ℚ) (c : ℚ) :
    (l.map (fun x => f x / c)).sum = (l.map f).sum / c := by
  induction l with
  | nil => simp
  | cons x xs ih =>
    simp only [List.map_cons, List.sum_cons, ih]
    ring

lemma sum_map_swap {α β : Type} (l₁ : List α) (l₂ : List β) (f : α → β → ℚ) :
    (l₁.map (fun a => (l₂.map (fun b => f a b)).sum)).sum =
      (l₂.map (fun b => (l₁.map (fun a => f a b)).sum)).sum := by
  induction l₁ with
  | nil => simp [sum_map_const]
  | cons a t ih =>
    simp only [List.map_cons, List.sum_cons, ih]
    rw [← sum_map_add]

lemma sum_map_ite_eq (nodes : List String) (x : String) (c : ℚ)
    (hnd : nodes.Nodup) (hx : x ∈ nodes) :
    (nodes.map (fun v => if x = v then c else 0)).sum = c := by
  induction nodes with
  | nil => cases hx
  | cons a l ih =>
    rcases List.mem_cons.mp hx with h | h
    · subst h
      rw [List.map_cons, List.sum_cons, if_pos rfl]
      have hnotin : x ∉ l := (List.nodup_cons.mp hnd).1
      have hzero : (l.map (fun v => if x = v then c else 0)).sum = 0 := by
        apply List.sum_eq_zero
        intro y hy
        obtain ⟨v, hv, rfl⟩ := List.mem_map.mp hy
        rw [if_neg]
        intro hxv
        exact hnotin (hxv ▸ hv)
      rw [hzero, add_zero]
    · have hxa : x ≠ a := by
        intro hcontra
        exact (List.nodup_cons.mp hnd).1 (hcontra ▸ h)
      rw [List.map_cons, List.sum_cons, if_neg hxa, zero_add]
      exact ih (List.nodup_cons.mp hnd).2 h

/-- Summing, over a duplicate-free node list containing every target, the
total weight towards each node recovers the total weight of the edge list. -/
lemma sum_filter_targets (nodes : List String) (hnd : nodes.Nodup) :
    ∀ (out : List (String × String × ℚ)), (∀ e ∈ out, e.2.1 ∈ nodes) →
      (nodes.map (fun v =>
        ((out.filter (fun e => e.2.1 == v)).map (fun e => e.2.2)).sum)).sum =
      (out.map (fun e => e.2.2)).sum
  | [], _ => by simp [sum_map_const]
  | e :: t, hmem => by
    have hsplit : ∀ v : String,
        (((e :: t).filter (fun x => x.2.1 == v)).map (fun x => x.2.2)).sum =
          (if e.2.1 = v then e.2.2 else 0) +
            ((t.filter (fun x => x.2.1 == v)).map (fun x => x.2.2)).sum := by
      intro v
      by_cases h : e.2.1 = v
      · rw [List.filter_cons_of_pos (by simpa using h), List.map_cons,
          List.sum_cons, if_pos h]
      · rw [List.filter_cons_of_neg (by simpa using h), if_neg h, zero_add]
    rw [List.map_congr_left (fun v _ => hsplit v), sum_map_add,
      sum_map_ite_eq nodes e.2.1 e.2.2 hnd (hmem e (List.mem_cons_self e t)),
      sum_filter_targets nodes hnd t
        (fun x hx => hmem x (List.mem_cons_of_mem e hx)),
      List.map_cons, List.sum_cons]

/- ------------------------------------------------------------------
C2 : PageRank mass conservation
------------------------------------------------------------------ -/

/-- Every column of the modelled transition matrix sums to 1: dangling and
zero-total columns are uniform, and a proper column distributes the total
outgoing weight proportionally. -/
lemma transition_column_sum (G : DiGraphQ) (hWF : G.WF) (hne : G.nodes ≠ [])
    (u : String) :
    (G.nodes.map (fun v => transition G u v)).sum = 1 := by
  have hn : (G.nodes.length : ℚ) ≠ 0 := by
    simpa using fun hcontra => hne (List.length_eq_zero.mp hcontra)
  by_cases hout : (G.outEdges u).isEmpty
  · rw [List.map_congr_left
      (fun v _ => show transition G u v = 1 / (G.nodes.length : ℚ) by
        unfold transition
        rw [if_pos hout])]
    rw [sum_map_const]
    field_simp
  · by_cases htot : ((G.outEdges u).map (fun e => e.2.2)).sum = 0
    · rw [List.map_congr_left
        (fun v _ => show transition G u v = 1 / (G.nodes.length : ℚ) by
          unfold transition
          rw [if_neg hout, if_pos htot])]
      rw [sum_map_const]
      field_simp
    · rw [List.map_congr_left
        (fun v _ => show transition G u v =
            (((G.outEdges u).filter (fun e => e.2.1 == v)).map
              (fun e => e.2.2)).sum /
              ((G.outEdges u).map (fun e => e.2.2)).sum by
          unfold transition
          rw [if_neg hout, if_neg htot])]
      rw [sum_map_div, sum_filter_targets G.nodes hWF.1 (G.outEdges u)
        (fun e he => (hWF.2.1 e (List.mem_of_mem_filter he)).2)]
      exact div_self htot

/-- One power-iteration step preserves total mass 1. -/
lemma pagerankStep_sum (G : DiGraphQ) (d : ℚ) (pers pr : String → ℚ)
    (hWF : G.WF) (hne : G.nodes ≠ [])
    (hpers : (G.nodes.map pers).sum = 1) (hpr : (G.nodes.map pr).sum = 1) :
    (G.nodes.map (pagerankStep G d pers pr)).sum = 1 := by
  unfold pagerankStep
  have h1 : (G.nodes.map (fun v =>
      d * (G.nodes.map (fun u => transition G u v * pr u)).sum +
        (1 - d) * pers v)).sum =
      (G.nodes.map (fun v =>
        d * (G.nodes.map (fun u => transition G u v * pr u)).sum)).sum +
      (G.nodes.map (fun v => (1 - d) * pers v)).sum :=
    sum_map_add G.nodes _ _
  rw [h1, sum_map_mul_left, sum_map_mul_left, hpers]
  have h2 : (G.nodes.map (fun v =>
      (G.nodes.map (fun u => transition G u v * pr u)).sum)).sum =
      (G.nodes.map (fun u =>
        (G.nodes.map (fun v => transition G u v * pr u)).sum)).sum :=
    sum_map_swap G.nodes G.nodes _
  rw [h2]
  have h3 : ∀ u ∈ G.nodes,
      (G.nodes.map (fun v => transition G u v * pr u)).sum = pr u := by
    intro u _
    rw [sum_map_mul_right, transition_column_sum G hWF hne u, one_mul]
  rw [List.map_congr_left h3, hpr]
  ring

/-- The iteration loop preserves total mass 1 (both the early-break and the
continue branch return a mass-1 vector). -/
lemma powerLoop_sum (G : DiGraphQ) (d tol : ℚ) (pers : String → ℚ)
    (hWF : G.WF) (hne : G.nodes ≠ []) (hpers : (G.nodes.map pers).sum = 1) :
    ∀ (k : Nat) (pr : String → ℚ), (G.nodes.map pr).sum = 1 →
      (G.nodes.map (powerLoop G d tol pers k pr)).sum = 1
  | 0, _pr, hpr => hpr
  | k + 1, pr, hpr => by
    unfold powerLoop
    by_cases h : maxAbsDiff G (pagerankStep G d pers pr) pr < tol
    · rw [if_pos h]
      exact hpr
    · rw [if_neg h]
      exact powerLoop_sum G d tol pers hWF hne hpers k _
        (pagerankStep_sum G d pers pr hWF hne hpers hpr)

/-- The start vectors have mass 1: uniform by construction, normalized ones
by the division by their own (nonzero) total. -/
lemma startVec_sum (G : DiGraphQ) (hne : G.nodes ≠ [])
    (p : Option (String → ℚ)) (hp : ∀ q, p = some q → (G.nodes.map q).sum ≠ 0) :
    (G.nodes.map (startVec G p)).sum = 1 := by
  have hn : (G.nodes.length : ℚ) ≠ 0 := by
    simpa using fun hcontra => hne (List.length_eq_zero.mp hcontra)
  cases p with
  | none =>
    show (G.nodes.map (fun _ => 1 / (G.nodes.length : ℚ))).sum = 1
    rw [sum_map_const]
    field_simp
  | some q =>
    show (G.nodes.map (fun v => q v / (G.nodes.map q).sum)).sum = 1
    rw [sum_map_div]
    exact div_self (hp q rfl)

/-- C2: for every well-formed non-empty graph with non-negative weights (and
any provided personalization / warm-start vectors of nonzero total, as the
code normalizes them by their own sum), `pagerank` returns a map whose keys
are exactly the graph's nodes and whose values sum to exactly 1 — in
particular to 1 within the 1e-6 tolerance — because every column of the
transition matrix sums to 1 and the start vectors are normalized. -/
theorem pagerank_mass (G : DiGraphQ) (d tol : ℚ) (maxIter : Nat)
    (personalization initialRatings : Option (String → ℚ))
    (hWF : G.WF) (hne : G.nodes ≠ []) (_hnn : G.NonnegWeights)
    (hpers : ∀ q, personalization = some q → (G.nodes.map q).sum ≠ 0)
    (hinit : ∀ q, initialRatings = some q → (G.nodes.map q).sum ≠ 0) :
    (pagerank G d tol maxIter personalization initialRatings).map Prod.fst =
      G.nodes ∧
    |((pagerank G d tol maxIter personalization initialRatings).map
        Prod.snd).sum - 1| ≤ 1 / 1000000 := by
  have hempty : G.nodes.isEmpty = false := by
    cases hh : G.nodes with
    | nil => exact absurd hh hne
    | cons a l => rfl
  unfold pagerank
  rw [hempty]
  simp only [Bool.false_eq_true, if_false, List.map_map]
  constructor
  · exact List.map_id G.nodes
  · have hsum : (G.nodes.map (fun v =>
        powerLoop G d tol (startVec G personalization) maxIter
          (startVec G initialRatings) v)).sum = 1 := by
      have hfun : (fun v => powerLoop G d tol (startVec G personalization)
          maxIter (startVec G initialRatings) v) =
          powerLoop G d tol (startVec G personalization) maxIter
            (startVec G initialRatings) := rfl
      rw [hfun]
      exact powerLoop_sum G d tol (startVec G personalization) hWF hne
        (startVec_sum G hne personalization hpers) maxIter
        (startVec G initialRatings) (startVec_sum G hne initialRatings hinit)
    have hcomp : (Prod.snd ∘ fun v =>
        (v, powerLoop G d tol (startVec G personalization) maxIter
              (startVec G initialRatings) v)) =
        (fun v => powerLoop G d tol (startVec G personalization) maxIter
          (startVec G initialRatings) v) := rfl
    rw [hcomp, hsum]
    norm_num

/-- C2 witness: the theorem applied to a concrete two-node one-edge graph. -/
theorem pagerank_mass_witness :
    (pagerank ⟨["Alabama", "Georgia"], [("Georgia", "Alabama", 1)]⟩ (17 / 20)
        (1 / 1000000) 3 none none).map Prod.fst = ["Alabama", "Georgia"] ∧
    |((pagerank ⟨["Alabama", "Georgia"], [("Georgia", "Alabama", 1)]⟩ (17 / 20)
        (1 / 1000000) 3 none none).map Prod.snd).sum - 1| ≤ 1 / 1000000 :=
  pagerank_mass ⟨["Alabama", "Georgia"], [("Georgia", "Alabama", 1)]⟩ (17 / 20)
    (1 / 1000000) 3 none none (by decide) (by simp) (by decide)
    (fun q h => Option.noConfusion h) (fun q h => Option.noConfusion h)

/- ------------------------------------------------------------------
C4 : PageRank edge cases and the iteration cap
------------------------------------------------------------------ -/

/-- On the single-node edgeless graph, one step maps any vector with value 1
at the node back to value 1 (the dangling column is `[1]`). -/
lemma pagerankStep_singleton (a : String) (d : ℚ) (pers pr : String → ℚ)
    (hpers : pers a = 1) (hpr : pr a = 1) :
    pagerankStep ⟨[a], []⟩ d pers pr a = 1 := by
  have htrans : transition ⟨[a], []⟩ a a = 1 := by
    unfold transition DiGraphQ.outEdges
    simp
  show d * ([a].map (fun u => transition ⟨[a], []⟩ u a * pr u)).sum +
      (1 - d) * pers a = 1
  rw [List.map_cons, List.map_nil, List.sum_cons, List.sum_nil, htrans,
    hpr, hpers]
  ring

/-- On the single-node edgeless graph the loop keeps the value 1 at the node
through every iteration and both exit paths. -/
lemma powerLoop_singleton (a : String) (d tol : ℚ) (pers : String → ℚ)
    (hpers : pers a = 1) :
    ∀ (k : Nat) (pr : String → ℚ), pr a = 1 →
      powerLoop ⟨[a], []⟩ d tol pers k pr a = 1
  | 0, _pr, hpr => hpr
  | k + 1, pr, hpr => by
    unfold powerLoop
    by_cases h : maxAbsDiff ⟨[a], []⟩ (pagerankStep ⟨[a], []⟩ d pers pr) pr < tol
    · rw [if_pos h]
      exact hpr
    · rw [if_neg h]
      exact powerLoop_singleton a d tol pers hpers k _
        (pagerankStep_singleton a d pers pr hpers hpr)

/-- When no step's difference drops below the tolerance, the loop runs its
full fuel and returns the `k`-fold iterate of the step function. -/
lemma powerLoop_eq_iterate (G : DiGraphQ) (d tol : ℚ) (pers : String → ℚ) :
    ∀ (k : Nat) (pr : String → ℚ),
      (∀ j < k, tol ≤ maxAbsDiff G
          ((pagerankStep G d pers)^[j + 1] pr) ((pagerankStep G d pers)^[j] pr)) →
      powerLoop G d tol pers k pr = (pagerankStep G d pers)^[k] pr
  | 0, _pr, _ => rfl
  | k + 1, pr, h => by
    have h0 : tol ≤ maxAbsDiff G (pagerankStep G d pers pr) pr := by
      have := h 0 (Nat.succ_pos k)
      simpa using this
    unfold powerLoop
    rw [if_neg (not_lt.mpr h0)]
    rw [powerLoop_eq_iterate G d tol pers k (pagerankStep G d pers pr)
      (fun j hj => by
        have := h (j + 1) (Nat.succ_lt_succ hj)
        rw [Function.iterate_succ_apply, Function.iterate_succ_apply] at this
        simpa [Function.iterate_succ_apply] using this)]
    exact (Function.iterate_succ_apply (pagerankStep G d pers) k pr).symm

/-- C4: `pagerank` (a) returns the empty map on the empty graph, (b) returns
`{node: 1.0}` on every single-node graph with no edges, for every damping,
tolerance and iteration cap, and (c) when no iteration's difference falls
below the tolerance it runs exactly `maxIter` steps and returns the last
iterate (the Python for-else only logs a warning).  Each branch returns a
value — the modelled function is total, mirroring that the source never
raises on a well-formed graph. -/
theorem pagerank_edge_cases :
    (∀ (d tol : ℚ) (maxIter : Nat),
      pagerank ⟨[], []⟩ d tol maxIter none none = []) ∧
    (∀ (a : String) (d tol : ℚ) (maxIter : Nat),
      pagerank ⟨[a], []⟩ d tol maxIter none none = [(a, 1)]) ∧
    (∀ (G : DiGraphQ) (d tol : ℚ) (maxIter : Nat), G.nodes ≠ [] →
      (∀ j < maxIter, tol ≤ maxAbsDiff G
          ((pagerankStep G d (uniformVec G))^[j + 1] (uniformVec G))
          ((pagerankStep G d (uniformVec G))^[j] (uniformVec G))) →
      pagerank G d tol maxIter none none =
        G.nodes.map (fun v =>
          (v, (pagerankStep G d (uniformVec G))^[maxIter] (uniformVec G) v))) := by
  refine ⟨fun d tol maxIter => rfl, ?_, ?_⟩
  · intro a d tol maxIter
    show [a].map (fun v =>
        (v, powerLoop ⟨[a], []⟩ d tol (startVec ⟨[a], []⟩ none) maxIter
              (startVec ⟨[a], []⟩ none) v)) = [(a, 1)]
    rw [List.map_cons, List.map_nil]
    have hstart : startVec ⟨[a], []⟩ none a = 1 := by
      show 1 / ((([a] : List String).length : ℚ)) = 1
      norm_num
    rw [powerLoop_singleton a d tol (startVec ⟨[a], []⟩ none) hstart maxIter
      (startVec ⟨[a], []⟩ none) hstart]
  · intro G d tol maxIter hne hnoconv
    have hempty : G.nodes.isEmpty = false := by
      cases hh : G.nodes with
      | nil => exact absurd hh hne
      | cons a l => rfl
    unfold pagerank
    rw [hempty]
    simp only [Bool.false_eq_true, if_false]
    apply List.map_congr_left
    intro v _
    rw [show startVec G none = uniformVec G from rfl]
    rw [powerLoop_eq_iterate G d tol (uniformVec G) maxIter (uniformVec G)
      hnoconv]

/-- C4 witness: the cap-reached clause applied to a concrete two-node graph
with an iteration cap of 0, whose hypotheses hold vacuously; the other two
clauses have no hypotheses. -/
theorem pagerank_edge_cases_witness :
    pagerank ⟨["Alabama", "Georgia"], []⟩ (17 / 20) (1 / 1000000) 0 none none =
      (⟨["Alabama", "Georgia"], []⟩ : DiGraphQ).nodes.map (fun v =>
        (v, (pagerankStep ⟨["Alabama", "Georgia"], []⟩ (17 / 20)
              (uniformVec ⟨["Alabama", "Georgia"], []⟩))^[0]
            (uniformVec ⟨["Alabama", "Georgia"], []⟩) v)) :=
  pagerank_edge_cases.2.2 ⟨["Alabama", "Georgia"], []⟩ (17 / 20) (1 / 1000000)
    0 (by simp) (fun j hj => absurd hj (Nat.not_lt_zero j))

/- ------------------------------------------------------------------
C10 : the neutrality metric
------------------------------------------------------------------ -/

lemma le_foldl_max (l : List ℚ) : ∀ (a : ℚ), a ≤ l.foldl max a := by
  induction l with
  | nil => intro a; exact le_rfl
  | cons x xs ih =>
    intro a
    exact le_trans (le_max_left a x) (ih (max a x))

lemma mem_le_foldl_max (l : List ℚ) : ∀ (a x : ℚ), x ∈ l → x ≤ l.foldl max a := by
  induction l with
  | nil => intro a x hx; cases hx
  | cons y ys ih =>
    intro a x hx
    rcases List.mem_cons.mp hx with h | h
    · subst h
      exact le_trans (le_max_right a x) (le_foldl_max ys (max a x))
    · exact ih (max a y) x h

lemma foldl_max_cases (l : List ℚ) : ∀ (a : ℚ),
    l.foldl max a = a ∨ l.foldl max a ∈ l := by
  induction l with
  | nil => intro a; exact Or.inl rfl
  | cons x xs ih =>
    intro a
    rcases ih (max a x) with h | h
    · rcases max_choice a x with hm | hm
      · exact Or.inl (by rw [List.foldl_cons, h, hm])
      · refine Or.inr ?_
        rw [List.foldl_cons, h, hm]
        exact List.mem_cons_self x xs
    · exact Or.inr (List.mem_cons_of_mem x h)

lemma sum_eq_length_mul (l : List ℚ) (v : ℚ) (h : ∀ x ∈ l, x = v) :
    l.sum = (l.length : ℚ) * v := by
  induction l with
  | nil => simp
  | cons x xs ih =>
    rw [List.sum_cons, ih (fun y hy => h y (List.mem_cons_of_mem x hy)),
      h x (List.mem_cons_self x xs), List.length_cons]
    push_cast
    ring

lemma listMean_const (l : List ℚ) (v : ℚ) (hne : l ≠ [])
    (h : ∀ x ∈ l, x = v) : listMean l = v := by
  have hlen : (l.length : ℚ) ≠ 0 := by
    simpa using fun hc => hne (List.length_eq_zero.mp hc)
  unfold listMean
  rw [sum_eq_length_mul l v h, mul_comm, mul_div_assoc, div_self hlen,
    mul_one]

/-- Members of the filtered-and-mapped bucket lists come from the mapped
rating list. -/
lemma confGroups_facts (teamRatings : List (String × ℚ)) :
    ∀ g ∈ confGroups teamRatings,
      g.2 ≠ [] ∧ ∀ x ∈ g.2, ∃ p ∈ teamRatings, x = p.2 := by
  intro g hg
  obtain ⟨c, hc, rfl⟩ := List.mem_map.mp hg
  have hc' := List.mem_dedup.mp hc
  obtain ⟨q, hq, hq1⟩ := List.mem_map.mp hc'
  constructor
  · intro hnil
    have hqf : q ∈ (teamRatings.filterMap
        (fun p => (biasTeamConf p.1).map (fun c => (c, p.2)))).filter
          (fun r => r.1 == c) :=
      List.mem_filter.mpr ⟨hq, by simpa using hq1⟩
    rw [List.map_eq_nil_iff] at hnil
    rw [hnil] at hqf
    cases hqf
  · intro x hx
    obtain ⟨r, hr, rfl⟩ := List.mem_map.mp hx
    have hr' := (List.mem_filter.mp hr).1
    obtain ⟨p, hp, hpr⟩ := List.mem_filterMap.mp hr'
    rcases Option.map_eq_some'.mp hpr with ⟨c', _, hc2⟩
    exact ⟨p, hp, by rw [← hc2]⟩

/-- C10: `compute_neutrality_metric` (1) returns 0.0 on the empty rating
map; (2) returns 0 whenever every team has the identical rating v; and
(3) computes exactly the maximum over the conferences (those with at least
one mapped team) of `|mean(R|c) - mean(R)|`: it bounds every conference
deviation from above and is either one of the deviations or the 0.0 the
accumulator started from (which is also the result when no conference is
populated). -/
theorem compute_neutrality_metric_spec :
    compute_neutrality_metric [] = 0 ∧
    (∀ (teamRatings : List (String × ℚ)) (v : ℚ), teamRatings ≠ [] →
      (∀ p ∈ teamRatings, p.2 = v) →
      compute_neutrality_metric teamRatings = 0) ∧
    (∀ teamRatings : List (String × ℚ),
      (∀ dev ∈ confDeviations teamRatings,
        dev ≤ compute_neutrality_metric teamRatings) ∧
      (compute_neutrality_metric teamRatings = 0 ∨
        compute_neutrality_metric teamRatings ∈ confDeviations teamRatings)) := by
  have hmax : ∀ teamRatings : List (String × ℚ),
      (∀ dev ∈ confDeviations teamRatings,
        dev ≤ compute_neutrality_metric teamRatings) ∧
      (compute_neutrality_metric teamRatings = 0 ∨
        compute_neutrality_metric teamRatings ∈ confDeviations teamRatings) := by
    intro R
    unfold compute_neutrality_metric
    by_cases hR : R.isEmpty
    · rw [if_pos hR]
      have : R = [] := List.isEmpty_iff.mp hR
      subst this
      refine ⟨?_, Or.inl rfl⟩
      intro dev hdev
      cases hdev
    · rw [if_neg hR]
      exact ⟨fun dev hdev => mem_le_foldl_max _ 0 dev hdev,
             foldl_max_cases (confDeviations R) 0⟩
  refine ⟨rfl, ?_, hmax⟩
  intro R v hne hv
  have hglobal : listMean (R.map (fun p => p.2)) = v := by
    apply listMean_const
    · simpa using hne
    · intro x hx
      obtain ⟨p, hp, rfl⟩ := List.mem_map.mp hx
      exact hv p hp
  have hdevzero : ∀ dev ∈ confDeviations R, dev = 0 := by
    intro dev hdev
    obtain ⟨g, hg, rfl⟩ := List.mem_map.mp hdev
    obtain ⟨hgne, hgmem⟩ := confGroups_facts R g hg
    have hgmean : listMean g.2 = v := by
      apply listMean_const g.2 v hgne
      intro x hx
      obtain ⟨p, hp, rfl⟩ := hgmem x hx
      exact hv p hp
    rw [hgmean, hglobal, sub_self, abs_zero]
  rcases (hmax R).2 with h | h
  · exact h
  · exact hdevzero _ h

/-- C10 witness: the identical-ratings clause applied to a concrete
two-team map. -/
theorem compute_neutrality_metric_spec_witness :
    compute_neutrality_metric [("Alabama", 1 / 3), ("Ohio State", 1 / 3)] = 0 :=
  compute_neutrality_metric_spec.2.1
    [("Alabama", 1 / 3), ("Ohio State", 1 / 3)] (1 / 3) (by simp)
    (by intro p hp; rcases List.mem_cons.mp hp with h | h
        · rw [h]
        · rw [List.mem_singleton.mp h])

end CFB
